import Mathlib

/-!
# Verification of `async_rwlock` (`src/async_rwlock/__init__.py`)

The source is a single-value asynchronous reader-writer lock built on
`asyncio.Lock` (`self._wlock`), `asyncio.Condition` (`self._rcond`) and a
plain reader counter (`self._readers`), guarding one value (`self._value`).

Shallow embedding.  The runtime is single-threaded cooperative multitasking:
code between two `await` suspension points runs atomically.  We therefore
model the program as a labeled transition system whose steps are exactly the
atomic segments of the source:

* The condition variable's internal lock is acquired and released inside a
  single atomic segment in every critical section of the source (`read`'s
  increment, `read`'s `finally` decrement-and-notify, `write`'s drain check,
  and `Condition.wait` releases it before suspending and reacquires it on
  wake), so it is never held across a suspension point and needs no state
  field: each of its critical sections is one atomic step here.
* `self._wlock` IS held across suspension points (by a reader awaiting the
  condition lock during its increment, and by a writer for its whole
  critical section including the drain wait), so it is a state field
  `wlockOwner`.
* `self._readers` is a Python `int`; it is modeled as `ℤ` so that
  non-negativity is a theorem, not a typing accident.
* Each task runs one `read()` or one `write()` context to completion
  (or cancellation); its control position between suspension points is a
  program counter.  A body may exit normally, by exception, or by
  cancellation (`ExitKind`); the `finally` block of `read` and the
  `async with self._wlock` unwind of `write` run on every exit kind, which
  is reflected by the exit steps being enabled for every `ExitKind`.
* Cancellation of a pending acquisition is a step from each pre-admission
  suspension point; per `asyncio` semantics a task cancelled while awaiting
  `Lock.acquire` does not take the lock, and a task cancelled inside
  `Condition.wait` reacquires the condition lock before the cancellation
  propagates through the `async with` unwinds, which then release the
  condition lock and `self._wlock`.
-/

namespace AsyncRwLock

/-- How control leaves a guarded `with`-block body: normal completion,
an exception, or task cancellation inside the body. -/
inductive ExitKind
  | normal
  | error
  | cancelled
deriving DecidableEq

/-- Program counter of a task running one `read()` context
(`src/async_rwlock/__init__.py`, `RwLock.read`):

* `acqW`: suspended at `async with self._wlock` (awaiting `_wlock.acquire`);
* `acqC`: holding `_wlock`, suspended at `async with self._rcond`;
* `reading obs`: past `self._readers += 1` and both releases, guard live,
  the body was yielded the reference `obs` (`yield self._value`);
* `exited k`: the body exited with kind `k`, the `finally` block is
  suspended at its `async with self._rcond`;
* `done k`: past `self._readers -= 1` and the conditional `notify`;
* `cancelledPre`: the acquisition was cancelled before admission. -/
inductive ReaderPC (α : Type)
  | acqW
  | acqC
  | reading (obs : α)
  | exited (k : ExitKind)
  | done (k : ExitKind)
  | cancelledPre
deriving DecidableEq

/-- Program counter of a task running one `write()` context
(`src/async_rwlock/__init__.py`, `RwLock.write`):

* `acqW`: suspended at `async with self._wlock`;
* `acqC`: holding `_wlock`, suspended at `async with self._rcond`
  (the `while self._readers > 0` check has not run yet);
* `condWait`: inside `await self._rcond.wait()`, condition lock released,
  not yet notified (still holding `_wlock`);
* `condNotified`: woken by `notify()`, reacquiring the condition lock to
  re-run the `while` check;
* `writing`: past the drain loop, condition lock released, `Writer` handle
  yielded, still holding `_wlock`;
* `done k`: the body exited with kind `k` and `_wlock` was released;
* `cancelledPre`: cancelled before admission (all unwinds performed). -/
inductive WriterPC
  | acqW
  | acqC
  | condWait
  | condNotified
  | writing
  | done (k : ExitKind)
  | cancelledPre
deriving DecidableEq

/-- A task is idle (has not issued an operation yet), running one `read()`,
or running one `write()`. -/
inductive TaskState (α : Type)
  | idle
  | r (pc : ReaderPC α)
  | w (pc : WriterPC)
deriving DecidableEq

/-- Global state of one `RwLock` instance plus the control state of `n`
client tasks: the owner of `self._wlock` (if any), `self._readers`,
`self._value`, and each task's program counter. -/
structure Config (n : ℕ) (α : Type) where
  wlockOwner : Option (Fin n)
  readers : ℤ
  value : α
  tasks : Fin n → TaskState α

variable {n : ℕ} {α : Type}

/-- A task in read phase: it has performed `self._readers += 1` and has not
yet performed `self._readers -= 1`. -/
def isRPhase : TaskState α → Bool
  | .r (.reading _) => true
  | .r (.exited _) => true
  | _ => false

/-- A task currently holding `self._wlock`. -/
def holdsW : TaskState α → Bool
  | .r .acqC => true
  | .w .acqC => true
  | .w .condWait => true
  | .w .condNotified => true
  | .w .writing => true
  | _ => false

/-- Contribution of one task to the reader count. -/
def rBit (s : TaskState α) : ℕ := if isRPhase s then 1 else 0

/-- Number of tasks in read phase. -/
def readCount (f : Fin n → TaskState α) : ℕ := ∑ t, rBit (f t)

/-- `RwLock.Writer.get_value`: `return self._rwlock._value`. -/
def RwLock.Writer.get_value (c : Config n α) : α := c.value

/-- `RwLock.Writer.set_value`: `self._rwlock._value = value`; a Python
method with no `return` returns `None`, modeled as `Unit`. -/
def RwLock.Writer.set_value (c : Config n α) (v : α) : Config n α × Unit :=
  ({ c with value := v }, ())

/-- Labels of atomic steps.  `rDec` covers both variants of the reader's
`finally` segment (with and without a `notify`). -/
inductive Action (α : Type)
  | rSpawn
  | rAcqW
  | rInc
  | rExit (k : ExitKind)
  | rDec
  | rCancel
  | wSpawn
  | wAcqW
  | wCheck
  | wRecheck
  | wGet (x : α)
  | wSet (v : α)
  | wExit (k : ExitKind)
  | wCancel
deriving DecidableEq

/-- One atomic segment of the source, as a labeled transition
`Step c (task, action) c'`. -/
inductive Step : Config n α → Fin n × Action α → Config n α → Prop
  /-- A task issues `read()`. -/
  | rSpawn (c : Config n α) (t : Fin n) (h : c.tasks t = .idle) :
      Step c (t, .rSpawn) { c with tasks := Function.update c.tasks t (.r .acqW) }
  /-- Reader acquires `self._wlock` (`async with self._wlock`). -/
  | rAcqW (c : Config n α) (t : Fin n) (h : c.tasks t = .r .acqW)
      (hw : c.wlockOwner = none) :
      Step c (t, .rAcqW)
        { c with wlockOwner := some t, tasks := Function.update c.tasks t (.r .acqC) }
  /-- Reader's increment segment: acquire `self._rcond`, run
  `self._readers += 1`, release `self._rcond`, release `self._wlock`,
  yield `self._value` to the body — one atomic segment (no `await` between
  the condition-lock acquisition and the `yield`). -/
  | rInc (c : Config n α) (t : Fin n) (h : c.tasks t = .r .acqC) :
      Step c (t, .rInc)
        { c with
          wlockOwner := none
          readers := c.readers + 1
          tasks := Function.update c.tasks t (.r (.reading c.value)) }
  /-- The reader body exits — normally, by exception, or by cancellation —
  and control enters the `finally` block (enabled for every `ExitKind`). -/
  | rExit (c : Config n α) (t : Fin n) (k : ExitKind) (obs : α)
      (h : c.tasks t = .r (.reading obs)) :
      Step c (t, .rExit k) { c with tasks := Function.update c.tasks t (.r (.exited k)) }
  /-- Reader's `finally` segment when no `notify` fires: acquire
  `self._rcond`, run `self._readers -= 1`, the `if self._readers == 0`
  guard finds either a nonzero count or no waiter, release `self._rcond`. -/
  | rDecQuiet (c : Config n α) (t : Fin n) (k : ExitKind)
      (h : c.tasks t = .r (.exited k))
      (hn : c.readers - 1 ≠ 0 ∨ ∀ u, c.tasks u ≠ .w .condWait) :
      Step c (t, .rDec)
        { c with
          readers := c.readers - 1
          tasks := Function.update c.tasks t (.r (.done k)) }
  /-- Reader's `finally` segment when the decrement reaches 0 and
  `self._rcond.notify()` wakes the waiting writer `u`. -/
  | rDecNotify (c : Config n α) (t u : Fin n) (k : ExitKind)
      (h : c.tasks t = .r (.exited k))
      (hz : c.readers - 1 = 0) (hu : c.tasks u = .w .condWait) :
      Step c (t, .rDec)
        { c with
          readers := c.readers - 1
          tasks := Function.update (Function.update c.tasks t (.r (.done k))) u
            (.w .condNotified) }
  /-- A pending `read()` is cancelled while awaiting `self._wlock`: the task
  never took the lock, nothing changes. -/
  | rCancelW (c : Config n α) (t : Fin n) (h : c.tasks t = .r .acqW) :
      Step c (t, .rCancel)
        { c with tasks := Function.update c.tasks t (.r .cancelledPre) }
  /-- A pending `read()` is cancelled while awaiting `self._rcond` inside
  the increment: the `async with self._wlock` unwind releases `_wlock`;
  `self._readers` was never incremented. -/
  | rCancelC (c : Config n α) (t : Fin n) (h : c.tasks t = .r .acqC) :
      Step c (t, .rCancel)
        { c with
          wlockOwner := none
          tasks := Function.update c.tasks t (.r .cancelledPre) }
  /-- A task issues `write()`. -/
  | wSpawn (c : Config n α) (t : Fin n) (h : c.tasks t = .idle) :
      Step c (t, .wSpawn) { c with tasks := Function.update c.tasks t (.w .acqW) }
  /-- Writer acquires `self._wlock`. -/
  | wAcqW (c : Config n α) (t : Fin n) (h : c.tasks t = .w .acqW)
      (hw : c.wlockOwner = none) :
      Step c (t, .wAcqW)
        { c with wlockOwner := some t, tasks := Function.update c.tasks t (.w .acqC) }
  /-- Writer's drain-check segment, loop not entered: acquire `self._rcond`,
  the `while self._readers > 0` guard fails, release `self._rcond`, yield
  the `Writer` handle. -/
  | wCheckExit (c : Config n α) (t : Fin n) (h : c.tasks t = .w .acqC)
      (hz : ¬ 0 < c.readers) :
      Step c (t, .wCheck) { c with tasks := Function.update c.tasks t (.w .writing) }
  /-- Writer's drain-check segment, loop entered: the guard holds, so
  `await self._rcond.wait()` releases the condition lock and suspends. -/
  | wCheckWait (c : Config n α) (t : Fin n) (h : c.tasks t = .w .acqC)
      (hp : 0 < c.readers) :
      Step c (t, .wCheck) { c with tasks := Function.update c.tasks t (.w .condWait) }
  /-- Notified writer reacquires the condition lock, `wait()` returns, the
  `while` guard fails: release `self._rcond` and yield the handle. -/
  | wRecheckExit (c : Config n α) (t : Fin n) (h : c.tasks t = .w .condNotified)
      (hz : ¬ 0 < c.readers) :
      Step c (t, .wRecheck) { c with tasks := Function.update c.tasks t (.w .writing) }
  /-- Notified writer reacquires the condition lock but the guard still
  holds: `wait()` again. -/
  | wRecheckWait (c : Config n α) (t : Fin n) (h : c.tasks t = .w .condNotified)
      (hp : 0 < c.readers) :
      Step c (t, .wRecheck) { c with tasks := Function.update c.tasks t (.w .condWait) }
  /-- The writer body calls `writer.get_value()`. -/
  | wGet (c : Config n α) (t : Fin n) (h : c.tasks t = .w .writing) :
      Step c (t, .wGet (RwLock.Writer.get_value c)) c
  /-- The writer body calls `writer.set_value(v)`. -/
  | wSet (c : Config n α) (t : Fin n) (v : α) (h : c.tasks t = .w .writing) :
      Step c (t, .wSet v) (RwLock.Writer.set_value c v).1
  /-- The writer body exits with any kind; the `async with self._wlock`
  unwind releases `_wlock`. -/
  | wExit (c : Config n α) (t : Fin n) (k : ExitKind) (h : c.tasks t = .w .writing) :
      Step c (t, .wExit k)
        { c with
          wlockOwner := none
          tasks := Function.update c.tasks t (.w (.done k)) }
  /-- A pending `write()` is cancelled while awaiting `self._wlock`. -/
  | wCancelW (c : Config n α) (t : Fin n) (h : c.tasks t = .w .acqW) :
      Step c (t, .wCancel)
        { c with tasks := Function.update c.tasks t (.w .cancelledPre) }
  /-- A pending `write()` is cancelled while awaiting `self._rcond` before
  the drain check: the unwind releases `_wlock`. -/
  | wCancelC (c : Config n α) (t : Fin n) (h : c.tasks t = .w .acqC) :
      Step c (t, .wCancel)
        { c with
          wlockOwner := none
          tasks := Function.update c.tasks t (.w .cancelledPre) }
  /-- A pending `write()` is cancelled inside `self._rcond.wait()`:
  `wait` reacquires the condition lock before propagating, then both
  `async with` unwinds release the condition lock and `_wlock`. -/
  | wCancelWait (c : Config n α) (t : Fin n) (h : c.tasks t = .w .condWait) :
      Step c (t, .wCancel)
        { c with
          wlockOwner := none
          tasks := Function.update c.tasks t (.w .cancelledPre) }
  /-- As above, cancelled after being notified but before reacquiring. -/
  | wCancelNotified (c : Config n α) (t : Fin n) (h : c.tasks t = .w .condNotified) :
      Step c (t, .wCancel)
        { c with
          wlockOwner := none
          tasks := Function.update c.tasks t (.w .cancelledPre) }

/-- A finite labeled execution. -/
inductive Steps : Config n α → List (Fin n × Action α) → Config n α → Prop
  | nil (c : Config n α) : Steps c [] c
  | cons {c c₁ c₂ : Config n α} {l : Fin n × Action α} {tr : List (Fin n × Action α)}
      (h : Step c l c₁) (hs : Steps c₁ tr c₂) : Steps c (l :: tr) c₂

/-- `RwLock.__init__(value)`: reader count 0, `_wlock` unlocked, no task
has issued an operation yet. -/
def initConfig (n : ℕ) (α : Type) (v : α) : Config n α :=
  { wlockOwner := none, readers := 0, value := v, tasks := fun _ => .idle }

/-- States reachable from a freshly constructed lock by some interleaving. -/
def Reachable (v : α) (c : Config n α) : Prop :=
  ∃ tr, Steps (initConfig n α v) tr c

/-- A live read guard: the body holds the yielded reference. -/
def readGuardLive (c : Config n α) (t : Fin n) : Prop :=
  ∃ obs, c.tasks t = .r (.reading obs)

/-- A read permit not yet released (incremented, decrement still pending). -/
def readHolds (c : Config n α) (t : Fin n) : Prop :=
  isRPhase (c.tasks t) = true

/-- A live write handle. -/
def writerLive (c : Config n α) (t : Fin n) : Prop :=
  c.tasks t = .w .writing

/-! ## Counting lemmas -/

lemma readCount_update (f : Fin n → TaskState α) (t : Fin n) (v : TaskState α) :
    readCount (Function.update f t v) + rBit (f t) = readCount f + rBit v := by
  classical
  have h1 : ∀ u ∈ Finset.univ, rBit (Function.update f t v u)
      = Function.update (fun u => rBit (f u)) t (rBit v) u := by
    intro u _
    by_cases hu : u = t
    · subst hu; simp
    · simp [Function.update_noteq hu]
  unfold readCount
  rw [Finset.sum_congr rfl h1, Finset.sum_update_of_mem (Finset.mem_univ t),
    ← Finset.erase_eq]
  have h2 : (∑ x ∈ Finset.univ.erase t, rBit (f x)) + rBit (f t) = ∑ u, rBit (f u) :=
    Finset.sum_erase_add Finset.univ (fun u => rBit (f u)) (Finset.mem_univ t)
  omega

lemma isRPhase_false_of_readCount_eq_zero {f : Fin n → TaskState α}
    (h : readCount f = 0) (t : Fin n) : isRPhase (f t) = false := by
  unfold readCount at h
  rw [Finset.sum_eq_zero_iff] at h
  have ht := h t (Finset.mem_univ t)
  unfold rBit at ht
  cases hc : isRPhase (f t)
  · rfl
  · rw [hc] at ht; simp at ht

lemma rBit_le_readCount (f : Fin n → TaskState α) (t : Fin n) :
    rBit (f t) ≤ readCount f :=
  Finset.single_le_sum (f := fun u => rBit (f u)) (fun _ _ => Nat.zero_le _)
    (Finset.mem_univ t)

/-! ## The global invariant -/

/-- The inductive invariant tying the lock's fields to the task states:
the counter equals the number of tasks in read phase; any task holding
`self._wlock` is its recorded owner; a live writer sees a zero counter;
a live read guard's yielded reference is the current value. -/
def Inv (c : Config n α) : Prop :=
  c.readers = (readCount c.tasks : ℤ)
  ∧ (∀ t, holdsW (c.tasks t) = true → c.wlockOwner = some t)
  ∧ (∀ t, c.tasks t = .w .writing → c.readers = 0)
  ∧ (∀ t obs, c.tasks t = .r (.reading obs) → obs = c.value)

lemma Step.readers_count {c c₂ : Config n α} {l : Fin n × Action α}
    (hs : Step c l c₂) (h1 : c.readers = (readCount c.tasks : ℤ)) :
    c₂.readers = (readCount c₂.tasks : ℤ) := by
  cases hs with
  | rSpawn t h =>
      have hu := readCount_update c.tasks t (.r .acqW)
      rw [h] at hu
      simp [rBit, isRPhase] at hu
      dsimp only
      omega
  | rAcqW t h hw =>
      have hu := readCount_update c.tasks t (.r .acqC)
      rw [h] at hu
      simp [rBit, isRPhase] at hu
      dsimp only
      omega
  | rInc t h =>
      have hu := readCount_update c.tasks t (.r (.reading c.value))
      rw [h] at hu
      simp [rBit, isRPhase] at hu
      dsimp only
      omega
  | rExit t k obs h =>
      have hu := readCount_update c.tasks t (.r (.exited k))
      rw [h] at hu
      simp [rBit, isRPhase] at hu
      dsimp only
      omega
  | rDecQuiet t k h hn =>
      have hu := readCount_update c.tasks t (.r (.done k))
      rw [h] at hu
      simp [rBit, isRPhase] at hu
      dsimp only
      omega
  | rDecNotify t u k h hz huw =>
      have hne : u ≠ t := by
        intro e; rw [e, h] at huw; cases huw
      have hu1 := readCount_update c.tasks t (.r (.done k))
      rw [h] at hu1
      simp [rBit, isRPhase] at hu1
      have hu2 := readCount_update (Function.update c.tasks t (.r (.done k))) u
        (.w .condNotified)
      rw [Function.update_noteq hne, huw] at hu2
      simp [rBit, isRPhase] at hu2
      dsimp only
      omega
  | rCancelW t h =>
      have hu := readCount_update c.tasks t (.r .cancelledPre)
      rw [h] at hu
      simp [rBit, isRPhase] at hu
      dsimp only
      omega
  | rCancelC t h =>
      have hu := readCount_update c.tasks t (.r .cancelledPre)
      rw [h] at hu
      simp [rBit, isRPhase] at hu
      dsimp only
      omega
  | wSpawn t h =>
      have hu := readCount_update c.tasks t (.w .acqW)
      rw [h] at hu
      simp [rBit, isRPhase] at hu
      dsimp only
      omega
  | wAcqW t h hw =>
      have hu := readCount_update c.tasks t (.w .acqC)
      rw [h] at hu
      simp [rBit, isRPhase] at hu
      dsimp only
      omega
  | wCheckExit t h hz =>
      have hu := readCount_update c.tasks t (.w .writing)
      rw [h] at hu
      simp [rBit, isRPhase] at hu
      dsimp only
      omega
  | wCheckWait t h hp =>
      have hu := readCount_update c.tasks t (.w .condWait)
      rw [h] at hu
      simp [rBit, isRPhase] at hu
      dsimp only
      omega
  | wRecheckExit t h hz =>
      have hu := readCount_update c.tasks t (.w .writing)
      rw [h] at hu
      simp [rBit, isRPhase] at hu
      dsimp only
      omega
  | wRecheckWait t h hp =>
      have hu := readCount_update c.tasks t (.w .condWait)
      rw [h] at hu
      simp [rBit, isRPhase] at hu
      dsimp only
      omega
  | wGet t h => exact h1
  | wSet t v h =>
      dsimp only [RwLock.Writer.set_value]
      exact h1
  | wExit t k h =>
      have hu := readCount_update c.tasks t (.w (.done k))
      rw [h] at hu
      simp [rBit, isRPhase] at hu
      dsimp only
      omega
  | wCancelW t h =>
      have hu := readCount_update c.tasks t (.w .cancelledPre)
      rw [h] at hu
      simp [rBit, isRPhase] at hu
      dsimp only
      omega
  | wCancelC t h =>
      have hu := readCount_update c.tasks t (.w .cancelledPre)
      rw [h] at hu
      simp [rBit, isRPhase] at hu
      dsimp only
      omega
  | wCancelWait t h =>
      have hu := readCount_update c.tasks t (.w .cancelledPre)
      rw [h] at hu
      simp [rBit, isRPhase] at hu
      dsimp only
      omega
  | wCancelNotified t h =>
      have hu := readCount_update c.tasks t (.w .cancelledPre)
      rw [h] at hu
      simp [rBit, isRPhase] at hu
      dsimp only
      omega

lemma Step.holdsW_owner {c c₂ : Config n α} {l : Fin n × Action α}
    (hs : Step c l c₂)
    (h2 : ∀ t, holdsW (c.tasks t) = true → c.wlockOwner = some t) :
    ∀ t, holdsW (c₂.tasks t) = true → c₂.wlockOwner = some t := by
  cases hs with
  | rSpawn t h =>
      intro u hu
      dsimp only at hu ⊢
      by_cases he : u = t
      · subst he; rw [Function.update_same] at hu; simp [holdsW] at hu
      · rw [Function.update_noteq he] at hu; exact h2 u hu
  | rAcqW t h hw =>
      intro u hu
      dsimp only at hu ⊢
      by_cases he : u = t
      · subst he; rfl
      · rw [Function.update_noteq he] at hu
        have := h2 u hu
        rw [hw] at this
        cases this
  | rInc t h =>
      intro u hu
      dsimp only at hu ⊢
      by_cases he : u = t
      · subst he; rw [Function.update_same] at hu; simp [holdsW] at hu
      · rw [Function.update_noteq he] at hu
        have h2u := h2 u hu
        have h2t := h2 t (by rw [h]; rfl)
        rw [h2t] at h2u
        exact absurd (Option.some.inj h2u).symm he
  | rExit t k obs h =>
      intro u hu
      dsimp only at hu ⊢
      by_cases he : u = t
      · subst he; rw [Function.update_same] at hu; simp [holdsW] at hu
      · rw [Function.update_noteq he] at hu; exact h2 u hu
  | rDecQuiet t k h hn =>
      intro u hu
      dsimp only at hu ⊢
      by_cases he : u = t
      · subst he; rw [Function.update_same] at hu; simp [holdsW] at hu
      · rw [Function.update_noteq he] at hu; exact h2 u hu
  | rDecNotify t w k h hz huw =>
      intro u hu
      dsimp only at hu ⊢
      by_cases hew : u = w
      · subst hew; exact h2 u (by rw [huw]; rfl)
      · rw [Function.update_noteq hew] at hu
        by_cases he : u = t
        · subst he; rw [Function.update_same] at hu; simp [holdsW] at hu
        · rw [Function.update_noteq he] at hu; exact h2 u hu
  | rCancelW t h =>
      intro u hu
      dsimp only at hu ⊢
      by_cases he : u = t
      · subst he; rw [Function.update_same] at hu; simp [holdsW] at hu
      · rw [Function.update_noteq he] at hu; exact h2 u hu
  | rCancelC t h =>
      intro u hu
      dsimp only at hu ⊢
      by_cases he : u = t
      · subst he; rw [Function.update_same] at hu; simp [holdsW] at hu
      · rw [Function.update_noteq he] at hu
        have h2u := h2 u hu
        have h2t := h2 t (by rw [h]; rfl)
        rw [h2t] at h2u
        exact absurd (Option.some.inj h2u).symm he
  | wSpawn t h =>
      intro u hu
      dsimp only at hu ⊢
      by_cases he : u = t
      · subst he; rw [Function.update_same] at hu; simp [holdsW] at hu
      · rw [Function.update_noteq he] at hu; exact h2 u hu
  | wAcqW t h hw =>
      intro u hu
      dsimp only at hu ⊢
      by_cases he : u = t
      · subst he; rfl
      · rw [Function.update_noteq he] at hu
        have := h2 u hu
        rw [hw] at this
        cases this
  | wCheckExit t h hz =>
      intro u hu
      dsimp only at hu ⊢
      by_cases he : u = t
      · subst he; exact h2 u (by rw [h]; rfl)
      · rw [Function.update_noteq he] at hu; exact h2 u hu
  | wCheckWait t h hp =>
      intro u hu
      dsimp only at hu ⊢
      by_cases he : u = t
      · subst he; exact h2 u (by rw [h]; rfl)
      · rw [Function.update_noteq he] at hu; exact h2 u hu
  | wRecheckExit t h hz =>
      intro u hu
      dsimp only at hu ⊢
      by_cases he : u = t
      · subst he; exact h2 u (by rw [h]; rfl)
      · rw [Function.update_noteq he] at hu; exact h2 u hu
  | wRecheckWait t h hp =>
      intro u hu
      dsimp only at hu ⊢
      by_cases he : u = t
      · subst he; exact h2 u (by rw [h]; rfl)
      · rw [Function.update_noteq he] at hu; exact h2 u hu
  | wGet t h => exact h2
  | wSet t v h =>
      intro u hu
      dsimp only [RwLock.Writer.set_value] at hu ⊢
      exact h2 u hu
  | wExit t k h =>
      intro u hu
      dsimp only at hu ⊢
      by_cases he : u = t
      · subst he; rw [Function.update_same] at hu; simp [holdsW] at hu
      · rw [Function.update_noteq he] at hu
        have h2u := h2 u hu
        have h2t := h2 t (by rw [h]; rfl)
        rw [h2t] at h2u
        exact absurd (Option.some.inj h2u).symm he
  | wCancelW t h =>
      intro u hu
      dsimp only at hu ⊢
      by_cases he : u = t
      · subst he; rw [Function.update_same] at hu; simp [holdsW] at hu
      · rw [Function.update_noteq he] at hu; exact h2 u hu
  | wCancelC t h =>
      intro u hu
      dsimp only at hu ⊢
      by_cases he : u = t
      · subst he; rw [Function.update_same] at hu; simp [holdsW] at hu
      · rw [Function.update_noteq he] at hu
        have h2u := h2 u hu
        have h2t := h2 t (by rw [h]; rfl)
        rw [h2t] at h2u
        exact absurd (Option.some.inj h2u).symm he
  | wCancelWait t h =>
      intro u hu
      dsimp only at hu ⊢
      by_cases he : u = t
      · subst he; rw [Function.update_same] at hu; simp [holdsW] at hu
      · rw [Function.update_noteq he] at hu
        have h2u := h2 u hu
        have h2t := h2 t (by rw [h]; rfl)
        rw [h2t] at h2u
        exact absurd (Option.some.inj h2u).symm he
  | wCancelNotified t h =>
      intro u hu
      dsimp only at hu ⊢
      by_cases he : u = t
      · subst he; rw [Function.update_same] at hu; simp [holdsW] at hu
      · rw [Function.update_noteq he] at hu
        have h2u := h2 u hu
        have h2t := h2 t (by rw [h]; rfl)
        rw [h2t] at h2u
        exact absurd (Option.some.inj h2u).symm he

lemma Step.writing_readers {c c₂ : Config n α} {l : Fin n × Action α}
    (hs : Step c l c₂) (hI : Inv c) :
    ∀ t, c₂.tasks t = .w .writing → c₂.readers = 0 := by
  obtain ⟨h1, h2, h3, h4⟩ := hI
  cases hs with
  | rSpawn t h =>
      intro u hu
      dsimp only at hu ⊢
      by_cases he : u = t
      · subst he; rw [Function.update_same] at hu; simp at hu
      · rw [Function.update_noteq he] at hu; exact h3 u hu
  | rAcqW t h hw =>
      intro u hu
      dsimp only at hu ⊢
      by_cases he : u = t
      · subst he; rw [Function.update_same] at hu; simp at hu
      · rw [Function.update_noteq he] at hu; exact h3 u hu
  | rInc t h =>
      intro u hu
      dsimp only at hu ⊢
      by_cases he : u = t
      · subst he; rw [Function.update_same] at hu; simp at hu
      · rw [Function.update_noteq he] at hu
        have h2u := h2 u (by rw [hu]; rfl)
        have h2t := h2 t (by rw [h]; rfl)
        rw [h2t] at h2u
        exact absurd (Option.some.inj h2u).symm he
  | rExit t k obs h =>
      intro u hu
      dsimp only at hu ⊢
      by_cases he : u = t
      · subst he; rw [Function.update_same] at hu; simp at hu
      · rw [Function.update_noteq he] at hu; exact h3 u hu
  | rDecQuiet t k h hn =>
      intro u hu
      dsimp only at hu ⊢
      by_cases he : u = t
      · subst he; rw [Function.update_same] at hu; simp at hu
      · rw [Function.update_noteq he] at hu
        have hz0 := h3 u hu
        have hb := rBit_le_readCount c.tasks t
        rw [h] at hb
        simp [rBit, isRPhase] at hb
        omega
  | rDecNotify t w k h hz huw =>
      intro u hu
      dsimp only at hu ⊢
      exact hz
  | rCancelW t h =>
      intro u hu
      dsimp only at hu ⊢
      by_cases he : u = t
      · subst he; rw [Function.update_same] at hu; simp at hu
      · rw [Function.update_noteq he] at hu; exact h3 u hu
  | rCancelC t h =>
      intro u hu
      dsimp only at hu ⊢
      by_cases he : u = t
      · subst he; rw [Function.update_same] at hu; simp at hu
      · rw [Function.update_noteq he] at hu; exact h3 u hu
  | wSpawn t h =>
      intro u hu
      dsimp only at hu ⊢
      by_cases he : u = t
      · subst he; rw [Function.update_same] at hu; simp at hu
      · rw [Function.update_noteq he] at hu; exact h3 u hu
  | wAcqW t h hw =>
      intro u hu
      dsimp only at hu ⊢
      by_cases he : u = t
      · subst he; rw [Function.update_same] at hu; simp at hu
      · rw [Function.update_noteq he] at hu; exact h3 u hu
  | wCheckExit t h hz =>
      intro u hu
      dsimp only at hu ⊢
      have hnn : (0:ℤ) ≤ c.readers := by rw [h1]; exact Int.ofNat_nonneg _
      omega
  | wCheckWait t h hp =>
      intro u hu
      dsimp only at hu ⊢
      by_cases he : u = t
      · subst he; rw [Function.update_same] at hu; simp at hu
      · rw [Function.update_noteq he] at hu; exact h3 u hu
  | wRecheckExit t h hz =>
      intro u hu
      dsimp only at hu ⊢
      have hnn : (0:ℤ) ≤ c.readers := by rw [h1]; exact Int.ofNat_nonneg _
      omega
  | wRecheckWait t h hp =>
      intro u hu
      dsimp only at hu ⊢
      by_cases he : u = t
      · subst he; rw [Function.update_same] at hu; simp at hu
      · rw [Function.update_noteq he] at hu; exact h3 u hu
  | wGet t h => exact h3
  | wSet t v h =>
      intro u hu
      dsimp only [RwLock.Writer.set_value] at hu ⊢
      exact h3 u hu
  | wExit t k h =>
      intro u hu
      dsimp only at hu ⊢
      by_cases he : u = t
      · subst he; rw [Function.update_same] at hu; simp at hu
      · rw [Function.update_noteq he] at hu; exact h3 u hu
  | wCancelW t h =>
      intro u hu
      dsimp only at hu ⊢
      by_cases he : u = t
      · subst he; rw [Function.update_same] at hu; simp at hu
      · rw [Function.update_noteq he] at hu; exact h3 u hu
  | wCancelC t h =>
      intro u hu
      dsimp only at hu ⊢
      by_cases he : u = t
      · subst he; rw [Function.update_same] at hu; simp at hu
      · rw [Function.update_noteq he] at hu; exact h3 u hu
  | wCancelWait t h =>
      intro u hu
      dsimp only at hu ⊢
      by_cases he : u = t
      · subst he; rw [Function.update_same] at hu; simp at hu
      · rw [Function.update_noteq he] at hu; exact h3 u hu
  | wCancelNotified t h =>
      intro u hu
      dsimp only at hu ⊢
      by_cases he : u = t
      · subst he; rw [Function.update_same] at hu; simp at hu
      · rw [Function.update_noteq he] at hu; exact h3 u hu

lemma Step.reading_obs {c c₂ : Config n α} {l : Fin n × Action α}
    (hs : Step c l c₂) (hI : Inv c) :
    ∀ t obs, c₂.tasks t = .r (.reading obs) → obs = c₂.value := by
  obtain ⟨h1, h2, h3, h4⟩ := hI
  cases hs with
  | rSpawn t h =>
      intro u obs hu
      dsimp only at hu ⊢
      by_cases he : u = t
      · subst he; rw [Function.update_same] at hu; simp at hu
      · rw [Function.update_noteq he] at hu; exact h4 u obs hu
  | rAcqW t h hw =>
      intro u obs hu
      dsimp only at hu ⊢
      by_cases he : u = t
      · subst he; rw [Function.update_same] at hu; simp at hu
      · rw [Function.update_noteq he] at hu; exact h4 u obs hu
  | rInc t h =>
      intro u obs hu
      dsimp only at hu ⊢
      by_cases he : u = t
      · subst he; rw [Function.update_same] at hu
        simp at hu
        exact hu.symm
      · rw [Function.update_noteq he] at hu; exact h4 u obs hu
  | rExit t k obs h =>
      intro u obs₂ hu
      dsimp only at hu ⊢
      by_cases he : u = t
      · subst he; rw [Function.update_same] at hu; simp at hu
      · rw [Function.update_noteq he] at hu; exact h4 u obs₂ hu
  | rDecQuiet t k h hn =>
      intro u obs hu
      dsimp only at hu ⊢
      by_cases he : u = t
      · subst he; rw [Function.update_same] at hu; simp at hu
      · rw [Function.update_noteq he] at hu; exact h4 u obs hu
  | rDecNotify t w k h hz huw =>
      intro u obs hu
      dsimp only at hu ⊢
      by_cases hew : u = w
      · subst hew; rw [Function.update_same] at hu; simp at hu
      · rw [Function.update_noteq hew] at hu
        by_cases he : u = t
        · subst he; rw [Function.update_same] at hu; simp at hu
        · rw [Function.update_noteq he] at hu; exact h4 u obs hu
  | rCancelW t h =>
      intro u obs hu
      dsimp only at hu ⊢
      by_cases he : u = t
      · subst he; rw [Function.update_same] at hu; simp at hu
      · rw [Function.update_noteq he] at hu; exact h4 u obs hu
  | rCancelC t h =>
      intro u obs hu
      dsimp only at hu ⊢
      by_cases he : u = t
      · subst he; rw [Function.update_same] at hu; simp at hu
      · rw [Function.update_noteq he] at hu; exact h4 u obs hu
  | wSpawn t h =>
      intro u obs hu
      dsimp only at hu ⊢
      by_cases he : u = t
      · subst he; rw [Function.update_same] at hu; simp at hu
      · rw [Function.update_noteq he] at hu; exact h4 u obs hu
  | wAcqW t h hw =>
      intro u obs hu
      dsimp only at hu ⊢
      by_cases he : u = t
      · subst he; rw [Function.update_same] at hu; simp at hu
      · rw [Function.update_noteq he] at hu; exact h4 u obs hu
  | wCheckExit t h hz =>
      intro u obs hu
      dsimp only at hu ⊢
      by_cases he : u = t
      · subst he; rw [Function.update_same] at hu; simp at hu
      · rw [Function.update_noteq he] at hu; exact h4 u obs hu
  | wCheckWait t h hp =>
      intro u obs hu
      dsimp only at hu ⊢
      by_cases he : u = t
      · subst he; rw [Function.update_same] at hu; simp at hu
      · rw [Function.update_noteq he] at hu; exact h4 u obs hu
  | wRecheckExit t h hz =>
      intro u obs hu
      dsimp only at hu ⊢
      by_cases he : u = t
      · subst he; rw [Function.update_same] at hu; simp at hu
      · rw [Function.update_noteq he] at hu; exact h4 u obs hu
  | wRecheckWait t h hp =>
      intro u obs hu
      dsimp only at hu ⊢
      by_cases he : u = t
      · subst he; rw [Function.update_same] at hu; simp at hu
      · rw [Function.update_noteq he] at hu; exact h4 u obs hu
  | wGet t h => exact h4
  | wSet t v h =>
      intro u obs hu
      dsimp only [RwLock.Writer.set_value] at hu ⊢
      have hz0 := h3 t h
      rw [h1] at hz0
      have hc : readCount c.tasks = 0 := by exact_mod_cast hz0
      have hph := isRPhase_false_of_readCount_eq_zero hc u
      rw [hu] at hph
      simp [isRPhase] at hph
  | wExit t k h =>
      intro u obs hu
      dsimp only at hu ⊢
      by_cases he : u = t
      · subst he; rw [Function.update_same] at hu; simp at hu
      · rw [Function.update_noteq he] at hu; exact h4 u obs hu
  | wCancelW t h =>
      intro u obs hu
      dsimp only at hu ⊢
      by_cases he : u = t
      · subst he; rw [Function.update_same] at hu; simp at hu
      · rw [Function.update_noteq he] at hu; exact h4 u obs hu
  | wCancelC t h =>
      intro u obs hu
      dsimp only at hu ⊢
      by_cases he : u = t
      · subst he; rw [Function.update_same] at hu; simp at hu
      · rw [Function.update_noteq he] at hu; exact h4 u obs hu
  | wCancelWait t h =>
      intro u obs hu
      dsimp only at hu ⊢
      by_cases he : u = t
      · subst he; rw [Function.update_same] at hu; simp at hu
      · rw [Function.update_noteq he] at hu; exact h4 u obs hu
  | wCancelNotified t h =>
      intro u obs hu
      dsimp only at hu ⊢
      by_cases he : u = t
      · subst he; rw [Function.update_same] at hu; simp at hu
      · rw [Function.update_noteq he] at hu; exact h4 u obs hu

/-- Every atomic step preserves the global invariant. -/
lemma Step.inv_step {c c₂ : Config n α} {l : Fin n × Action α} (hs : Step c l c₂)
    (hI : Inv c) : Inv c₂ :=
  ⟨hs.readers_count hI.1, hs.holdsW_owner hI.2.1, hs.writing_readers hI,
    hs.reading_obs hI⟩

/-- Executions preserve the global invariant. -/
lemma Steps.inv_trace {c c₂ : Config n α} {tr : List (Fin n × Action α)}
    (hs : Steps c tr c₂) (hI : Inv c) : Inv c₂ := by
  induction hs with
  | nil c => exact hI
  | cons h _ ih => exact ih (h.inv_step hI)

/-- The freshly constructed lock satisfies the invariant. -/
lemma inv_init (v : α) : Inv (initConfig n α v) := by
  refine ⟨?_, ?_, ?_, ?_⟩
  · simp [initConfig, readCount, rBit, isRPhase]
  · intro t ht; simp [initConfig, holdsW] at ht
  · intro t ht; simp [initConfig] at ht
  · intro t obs ht; simp [initConfig] at ht

/-- Every reachable state satisfies the invariant. -/
lemma inv_reachable {v : α} {c : Config n α} (h : Reachable v c) : Inv c := by
  obtain ⟨tr, hs⟩ := h
  exact hs.inv_trace (inv_init v)

/-! ## Trace composition and derived invariants -/

lemma Steps.append {c c₁ c₂ : Config n α} {tr₁ tr₂ : List (Fin n × Action α)}
    (h1 : Steps c tr₁ c₁) (h2 : Steps c₁ tr₂ c₂) : Steps c (tr₁ ++ tr₂) c₂ := by
  induction h1 with
  | nil c => exact h2
  | cons h _ ih => exact .cons h (ih h2)

lemma Reachable.extend {v : α} {c c₂ : Config n α} {tr : List (Fin n × Action α)}
    (h : Reachable v c) (hs : Steps c tr c₂) : Reachable v c₂ := by
  obtain ⟨tr₀, h₀⟩ := h
  exact ⟨tr₀ ++ tr, h₀.append hs⟩

/-- In a reachable state, a live writer excludes every unreleased read
permit (and forces the counter to 0). -/
lemma writing_no_reader {v : α} {c : Config n α} (h : Reachable v c) {t : Fin n}
    (hw : writerLive c t) : c.readers = 0 ∧ ∀ u, ¬ readHolds c u := by
  obtain ⟨h1, _, h3, _⟩ := inv_reachable h
  have hz := h3 t hw
  refine ⟨hz, ?_⟩
  intro u hu
  rw [h1] at hz
  have hc : readCount c.tasks = 0 := by exact_mod_cast hz
  have hf := isRPhase_false_of_readCount_eq_zero hc u
  rw [readHolds, hf] at hu
  cases hu

/-- A recorded `self._wlock` owner is a task whose program counter holds
the lock (one step). -/
lemma Step.owner_holds_step {c c₂ : Config n α} {l : Fin n × Action α}
    (hs : Step c l c₂)
    (h5 : ∀ t, c.wlockOwner = some t → holdsW (c.tasks t) = true) :
    ∀ t, c₂.wlockOwner = some t → holdsW (c₂.tasks t) = true := by
  cases hs with
  | rSpawn t h =>
      intro w hw
      dsimp only at hw ⊢
      by_cases he : w = t
      · subst he; have := h5 w hw; rw [h] at this; simp [holdsW] at this
      · rw [Function.update_noteq he]; exact h5 w hw
  | rAcqW t h hw =>
      intro w hww
      dsimp only at hww ⊢
      have he : t = w := Option.some.inj hww
      subst he
      rw [Function.update_same]
      rfl
  | rInc t h =>
      intro w hw
      dsimp only at hw
      cases hw
  | rExit t k obs h =>
      intro w hw
      dsimp only at hw ⊢
      by_cases he : w = t
      · subst he; have := h5 w hw; rw [h] at this; simp [holdsW] at this
      · rw [Function.update_noteq he]; exact h5 w hw
  | rDecQuiet t k h hn =>
      intro w hw
      dsimp only at hw ⊢
      by_cases he : w = t
      · subst he; have := h5 w hw; rw [h] at this; simp [holdsW] at this
      · rw [Function.update_noteq he]; exact h5 w hw
  | rDecNotify t u k h hz huw =>
      intro w hw
      dsimp only at hw ⊢
      by_cases heu : w = u
      · subst heu; rw [Function.update_same]; rfl
      · rw [Function.update_noteq heu]
        by_cases he : w = t
        · subst he; have := h5 w hw; rw [h] at this; simp [holdsW] at this
        · rw [Function.update_noteq he]; exact h5 w hw
  | rCancelW t h =>
      intro w hw
      dsimp only at hw ⊢
      by_cases he : w = t
      · subst he; have := h5 w hw; rw [h] at this; simp [holdsW] at this
      · rw [Function.update_noteq he]; exact h5 w hw
  | rCancelC t h =>
      intro w hw
      dsimp only at hw
      cases hw
  | wSpawn t h =>
      intro w hw
      dsimp only at hw ⊢
      by_cases he : w = t
      · subst he; have := h5 w hw; rw [h] at this; simp [holdsW] at this
      · rw [Function.update_noteq he]; exact h5 w hw
  | wAcqW t h hw =>
      intro w hww
      dsimp only at hww ⊢
      have he : t = w := Option.some.inj hww
      subst he
      rw [Function.update_same]
      rfl
  | wCheckExit t h hz =>
      intro w hw
      dsimp only at hw ⊢
      by_cases he : w = t
      · subst he; rw [Function.update_same]; rfl
      · rw [Function.update_noteq he]; exact h5 w hw
  | wCheckWait t h hp =>
      intro w hw
      dsimp only at hw ⊢
      by_cases he : w = t
      · subst he; rw [Function.update_same]; rfl
      · rw [Function.update_noteq he]; exact h5 w hw
  | wRecheckExit t h hz =>
      intro w hw
      dsimp only at hw ⊢
      by_cases he : w = t
      · subst he; rw [Function.update_same]; rfl
      · rw [Function.update_noteq he]; exact h5 w hw
  | wRecheckWait t h hp =>
      intro w hw
      dsimp only at hw ⊢
      by_cases he : w = t
      · subst he; rw [Function.update_same]; rfl
      · rw [Function.update_noteq he]; exact h5 w hw
  | wGet t h => exact h5
  | wSet t v h =>
      intro w hw
      dsimp only [RwLock.Writer.set_value] at hw ⊢
      exact h5 w hw
  | wExit t k h =>
      intro w hw
      dsimp only at hw
      cases hw
  | wCancelW t h =>
      intro w hw
      dsimp only at hw ⊢
      by_cases he : w = t
      · subst he; have := h5 w hw; rw [h] at this; simp [holdsW] at this
      · rw [Function.update_noteq he]; exact h5 w hw
  | wCancelC t h =>
      intro w hw
      dsimp only at hw
      cases hw
  | wCancelWait t h =>
      intro w hw
      dsimp only at hw
      cases hw
  | wCancelNotified t h =>
      intro w hw
      dsimp only at hw
      cases hw

lemma Steps.owner_holds_trace {c c₂ : Config n α} {tr : List (Fin n × Action α)}
    (hs : Steps c tr c₂)
    (h5 : ∀ t, c.wlockOwner = some t → holdsW (c.tasks t) = true) :
    ∀ t, c₂.wlockOwner = some t → holdsW (c₂.tasks t) = true := by
  induction hs with
  | nil c => exact h5
  | cons h _ ih => exact ih (h.owner_holds_step h5)

/-- In a reachable state, a recorded `self._wlock` owner is a task whose
program counter holds the lock. -/
lemma owner_holds_reachable {v : α} {c : Config n α} (h : Reachable v c) :
    ∀ t, c.wlockOwner = some t → holdsW (c.tasks t) = true := by
  obtain ⟨tr, hs⟩ := h
  refine hs.owner_holds_trace ?_
  intro t ht
  simp [initConfig] at ht

/-! ## Value frame lemmas -/

/-- Recognizes a `set_value` step label. -/
def isSetAction : Action α → Bool
  | .wSet _ => true
  | _ => false

lemma Step.value_frame_step {c c₂ : Config n α} {l : Fin n × Action α}
    (hs : Step c l c₂) (hns : isSetAction l.2 = false) : c₂.value = c.value := by
  cases hs <;> first
    | rfl
    | simp [isSetAction] at hns

lemma Steps.value_frame_trace {c c₂ : Config n α} {tr : List (Fin n × Action α)}
    (hs : Steps c tr c₂) (hns : ∀ l ∈ tr, isSetAction l.2 = false) :
    c₂.value = c.value := by
  induction hs with
  | nil c => rfl
  | cons h _ ih =>
      rw [ih (fun l hl => hns l (List.mem_cons_of_mem _ hl)),
        h.value_frame_step (hns _ (List.mem_cons_self _ _))]

lemma Step.rInc_reading {c c₂ : Config n α} {u : Fin n}
    (hs : Step c (u, .rInc) c₂) : c₂.tasks u = .r (.reading c.value) := by
  cases hs with
  | rInc h => exact Function.update_same u _ c.tasks

lemma Step.wSet_value {c c₂ : Config n α} {t : Fin n} {v : α}
    (hs : Step c (t, .wSet v) c₂) : c₂.value = v := by
  cases hs with
  | wSet v h => rfl

/-! ## Release counting (for exactly-once release) -/

/-- Recognizes a reader release label (the `finally` decrement segment). -/
def isRDec : Action α → Bool
  | .rDec => true
  | _ => false

/-- Recognizes a writer release label (the `_wlock` release on body exit). -/
def isWExitAct : Action α → Bool
  | .wExit _ => true
  | _ => false

/-- Number of reader release steps performed by task `t` in a trace. -/
def rDecCount (t : Fin n) (tr : List (Fin n × Action α)) : ℕ :=
  tr.countP (fun l => decide (l.1 = t) && isRDec l.2)

/-- Number of writer release steps performed by task `t` in a trace. -/
def wExitCount (t : Fin n) (tr : List (Fin n × Action α)) : ℕ :=
  tr.countP (fun l => decide (l.1 = t) && isWExitAct l.2)

/-- 1 exactly when a reader task has performed its decrement. -/
def rRelBit : TaskState α → ℕ
  | .r (.done _) => 1
  | _ => 0

/-- 1 exactly when a writer task has released `self._wlock` after writing. -/
def wRelBit : TaskState α → ℕ
  | .w (.done _) => 1
  | _ => 0

lemma rRelBit_le_one (s : TaskState α) : rRelBit s ≤ 1 := by
  unfold rRelBit; split <;> omega

lemma wRelBit_le_one (s : TaskState α) : wRelBit s ≤ 1 := by
  unfold wRelBit; split <;> omega

lemma Step.rRelBit_eq {c c₂ : Config n α} {l : Fin n × Action α}
    (hs : Step c l c₂) (t : Fin n) :
    rRelBit (c₂.tasks t)
      = rRelBit (c.tasks t)
        + (if (decide (l.1 = t) && isRDec l.2) = true then 1 else 0) := by
  cases hs with
  | rSpawn t₀ h =>
      dsimp only
      by_cases he : t = t₀
      · subst he; rw [Function.update_same, h]; simp [rRelBit, isRDec]
      · rw [Function.update_noteq he]; simp [isRDec]
  | rAcqW t₀ h hw =>
      dsimp only
      by_cases he : t = t₀
      · subst he; rw [Function.update_same, h]; simp [rRelBit, isRDec]
      · rw [Function.update_noteq he]; simp [isRDec]
  | rInc t₀ h =>
      dsimp only
      by_cases he : t = t₀
      · subst he; rw [Function.update_same, h]; simp [rRelBit, isRDec]
      · rw [Function.update_noteq he]; simp [isRDec]
  | rExit t₀ k obs h =>
      dsimp only
      by_cases he : t = t₀
      · subst he; rw [Function.update_same, h]; simp [rRelBit, isRDec]
      · rw [Function.update_noteq he]; simp [isRDec]
  | rDecQuiet t₀ k h hn =>
      dsimp only
      by_cases he : t = t₀
      · subst he; rw [Function.update_same, h]; simp [rRelBit, isRDec]
      · rw [Function.update_noteq he]; simp [isRDec, Ne.symm he]
  | rDecNotify t₀ u k h hz huw =>
      dsimp only
      by_cases heu : t = u
      · subst heu
        rw [Function.update_same]
        have hne : t ≠ t₀ := by intro e; rw [e, h] at huw; cases huw
        rw [huw]
        simp [rRelBit, isRDec, Ne.symm hne]
      · rw [Function.update_noteq heu]
        by_cases he : t = t₀
        · subst he; rw [Function.update_same, h]; simp [rRelBit, isRDec]
        · rw [Function.update_noteq he]; simp [isRDec, Ne.symm he]
  | rCancelW t₀ h =>
      dsimp only
      by_cases he : t = t₀
      · subst he; rw [Function.update_same, h]; simp [rRelBit, isRDec]
      · rw [Function.update_noteq he]; simp [isRDec]
  | rCancelC t₀ h =>
      dsimp only
      by_cases he : t = t₀
      · subst he; rw [Function.update_same, h]; simp [rRelBit, isRDec]
      · rw [Function.update_noteq he]; simp [isRDec]
  | wSpawn t₀ h =>
      dsimp only
      by_cases he : t = t₀
      · subst he; rw [Function.update_same, h]; simp [rRelBit, isRDec]
      · rw [Function.update_noteq he]; simp [isRDec]
  | wAcqW t₀ h hw =>
      dsimp only
      by_cases he : t = t₀
      · subst he; rw [Function.update_same, h]; simp [rRelBit, isRDec]
      · rw [Function.update_noteq he]; simp [isRDec]
  | wCheckExit t₀ h hz =>
      dsimp only
      by_cases he : t = t₀
      · subst he; rw [Function.update_same, h]; simp [rRelBit, isRDec]
      · rw [Function.update_noteq he]; simp [isRDec]
  | wCheckWait t₀ h hp =>
      dsimp only
      by_cases he : t = t₀
      · subst he; rw [Function.update_same, h]; simp [rRelBit, isRDec]
      · rw [Function.update_noteq he]; simp [isRDec]
  | wRecheckExit t₀ h hz =>
      dsimp only
      by_cases he : t = t₀
      · subst he; rw [Function.update_same, h]; simp [rRelBit, isRDec]
      · rw [Function.update_noteq he]; simp [isRDec]
  | wRecheckWait t₀ h hp =>
      dsimp only
      by_cases he : t = t₀
      · subst he; rw [Function.update_same, h]; simp [rRelBit, isRDec]
      · rw [Function.update_noteq he]; simp [isRDec]
  | wGet t₀ h => simp [isRDec]
  | wSet t₀ v h =>
      dsimp only [RwLock.Writer.set_value]
      simp [isRDec]
  | wExit t₀ k h =>
      dsimp only
      by_cases he : t = t₀
      · subst he; rw [Function.update_same, h]; simp [rRelBit, isRDec]
      · rw [Function.update_noteq he]; simp [isRDec]
  | wCancelW t₀ h =>
      dsimp only
      by_cases he : t = t₀
      · subst he; rw [Function.update_same, h]; simp [rRelBit, isRDec]
      · rw [Function.update_noteq he]; simp [isRDec]
  | wCancelC t₀ h =>
      dsimp only
      by_cases he : t = t₀
      · subst he; rw [Function.update_same, h]; simp [rRelBit, isRDec]
      · rw [Function.update_noteq he]; simp [isRDec]
  | wCancelWait t₀ h =>
      dsimp only
      by_cases he : t = t₀
      · subst he; rw [Function.update_same, h]; simp [rRelBit, isRDec]
      · rw [Function.update_noteq he]; simp [isRDec]
  | wCancelNotified t₀ h =>
      dsimp only
      by_cases he : t = t₀
      · subst he; rw [Function.update_same, h]; simp [rRelBit, isRDec]
      · rw [Function.update_noteq he]; simp [isRDec]

lemma Step.wRelBit_eq {c c₂ : Config n α} {l : Fin n × Action α}
    (hs : Step c l c₂) (t : Fin n) :
    wRelBit (c₂.tasks t)
      = wRelBit (c.tasks t)
        + (if (decide (l.1 = t) && isWExitAct l.2) = true then 1 else 0) := by
  cases hs with
  | rSpawn t₀ h =>
      dsimp only
      by_cases he : t = t₀
      · subst he; rw [Function.update_same, h]; simp [wRelBit, isWExitAct]
      · rw [Function.update_noteq he]; simp [isWExitAct]
  | rAcqW t₀ h hw =>
      dsimp only
      by_cases he : t = t₀
      · subst he; rw [Function.update_same, h]; simp [wRelBit, isWExitAct]
      · rw [Function.update_noteq he]; simp [isWExitAct]
  | rInc t₀ h =>
      dsimp only
      by_cases he : t = t₀
      · subst he; rw [Function.update_same, h]; simp [wRelBit, isWExitAct]
      · rw [Function.update_noteq he]; simp [isWExitAct]
  | rExit t₀ k obs h =>
      dsimp only
      by_cases he : t = t₀
      · subst he; rw [Function.update_same, h]; simp [wRelBit, isWExitAct]
      · rw [Function.update_noteq he]; simp [isWExitAct]
  | rDecQuiet t₀ k h hn =>
      dsimp only
      by_cases he : t = t₀
      · subst he; rw [Function.update_same, h]; simp [wRelBit, isWExitAct]
      · rw [Function.update_noteq he]; simp [isWExitAct]
  | rDecNotify t₀ u k h hz huw =>
      dsimp only
      by_cases heu : t = u
      · subst heu
        rw [Function.update_same, huw]
        simp [wRelBit, isWExitAct]
      · rw [Function.update_noteq heu]
        by_cases he : t = t₀
        · subst he; rw [Function.update_same, h]; simp [wRelBit, isWExitAct]
        · rw [Function.update_noteq he]; simp [isWExitAct]
  | rCancelW t₀ h =>
      dsimp only
      by_cases he : t = t₀
      · subst he; rw [Function.update_same, h]; simp [wRelBit, isWExitAct]
      · rw [Function.update_noteq he]; simp [isWExitAct]
  | rCancelC t₀ h =>
      dsimp only
      by_cases he : t = t₀
      · subst he; rw [Function.update_same, h]; simp [wRelBit, isWExitAct]
      · rw [Function.update_noteq he]; simp [isWExitAct]
  | wSpawn t₀ h =>
      dsimp only
      by_cases he : t = t₀
      · subst he; rw [Function.update_same, h]; simp [wRelBit, isWExitAct]
      · rw [Function.update_noteq he]; simp [isWExitAct]
  | wAcqW t₀ h hw =>
      dsimp only
      by_cases he : t = t₀
      · subst he; rw [Function.update_same, h]; simp [wRelBit, isWExitAct]
      · rw [Function.update_noteq he]; simp [isWExitAct]
  | wCheckExit t₀ h hz =>
      dsimp only
      by_cases he : t = t₀
      · subst he; rw [Function.update_same, h]; simp [wRelBit, isWExitAct]
      · rw [Function.update_noteq he]; simp [isWExitAct]
  | wCheckWait t₀ h hp =>
      dsimp only
      by_cases he : t = t₀
      · subst he; rw [Function.update_same, h]; simp [wRelBit, isWExitAct]
      · rw [Function.update_noteq he]; simp [isWExitAct]
  | wRecheckExit t₀ h hz =>
      dsimp only
      by_cases he : t = t₀
      · subst he; rw [Function.update_same, h]; simp [wRelBit, isWExitAct]
      · rw [Function.update_noteq he]; simp [isWExitAct]
  | wRecheckWait t₀ h hp =>
      dsimp only
      by_cases he : t = t₀
      · subst he; rw [Function.update_same, h]; simp [wRelBit, isWExitAct]
      · rw [Function.update_noteq he]; simp [isWExitAct]
  | wGet t₀ h => simp [isWExitAct]
  | wSet t₀ v h =>
      dsimp only [RwLock.Writer.set_value]
      simp [isWExitAct]
  | wExit t₀ k h =>
      dsimp only
      by_cases he : t = t₀
      · subst he; rw [Function.update_same, h]; simp [wRelBit, isWExitAct]
      · rw [Function.update_noteq he]; simp [isWExitAct, Ne.symm he]
  | wCancelW t₀ h =>
      dsimp only
      by_cases he : t = t₀
      · subst he; rw [Function.update_same, h]; simp [wRelBit, isWExitAct]
      · rw [Function.update_noteq he]; simp [isWExitAct]
  | wCancelC t₀ h =>
      dsimp only
      by_cases he : t = t₀
      · subst he; rw [Function.update_same, h]; simp [wRelBit, isWExitAct]
      · rw [Function.update_noteq he]; simp [isWExitAct]
  | wCancelWait t₀ h =>
      dsimp only
      by_cases he : t = t₀
      · subst he; rw [Function.update_same, h]; simp [wRelBit, isWExitAct]
      · rw [Function.update_noteq he]; simp [isWExitAct]
  | wCancelNotified t₀ h =>
      dsimp only
      by_cases he : t = t₀
      · subst he; rw [Function.update_same, h]; simp [wRelBit, isWExitAct]
      · rw [Function.update_noteq he]; simp [isWExitAct]

lemma Steps.rDec_count {c c₂ : Config n α} {tr : List (Fin n × Action α)}
    (hs : Steps c tr c₂) (t : Fin n) :
    rRelBit (c₂.tasks t) = rRelBit (c.tasks t) + rDecCount t tr := by
  induction hs with
  | nil c => simp [rDecCount]
  | cons h _ ih =>
      rw [ih, h.rRelBit_eq t]
      simp only [rDecCount, List.countP_cons]
      omega

lemma Steps.wExit_count {c c₂ : Config n α} {tr : List (Fin n × Action α)}
    (hs : Steps c tr c₂) (t : Fin n) :
    wRelBit (c₂.tasks t) = wRelBit (c.tasks t) + wExitCount t tr := by
  induction hs with
  | nil c => simp [wExitCount]
  | cons h _ ih =>
      rw [ih, h.wRelBit_eq t]
      simp only [wExitCount, List.countP_cons]
      omega

/-- The reader's release segment is enabled from every post-exit state:
either the quiet variant or the notify variant applies. -/
lemma rDec_enabled {c : Config n α} {t : Fin n} {k : ExitKind}
    (h : c.tasks t = .r (.exited k)) : ∃ c₂, Step c (t, .rDec) c₂ := by
  classical
  by_cases hz : c.readers - 1 = 0
  · by_cases hcw : ∃ u, c.tasks u = .w .condWait
    · obtain ⟨u, hu⟩ := hcw
      exact ⟨_, .rDecNotify c t u k h hz hu⟩
    · push_neg at hcw
      exact ⟨_, .rDecQuiet c t k h (.inr hcw)⟩
  · exact ⟨_, .rDecQuiet c t k h (.inl hz)⟩

/-! ## Claim theorems -/

/-- C1: Mutual exclusion: in every reachable state under any interleaving of
`read()` and `write()` acquisitions and releases, at most one write handle is
live at a time, and whenever a write handle is live the reader count is 0 and
no read guard is live. -/
theorem C1_mutual_exclusion {v : α} {c : Config n α} (h : Reachable v c) :
    (∀ t u, writerLive c t → writerLive c u → t = u)
    ∧ ∀ t, writerLive c t → c.readers = 0 ∧ ∀ u, ¬ readGuardLive c u := by
  obtain ⟨h1, h2, h3, h4⟩ := inv_reachable h
  constructor
  · intro t u ht hu
    have h2t := h2 t (by rw [writerLive] at ht; rw [ht]; rfl)
    have h2u := h2 u (by rw [writerLive] at hu; rw [hu]; rfl)
    rw [h2t] at h2u
    exact Option.some.inj h2u
  · intro t ht
    have hnr := writing_no_reader h ht
    refine ⟨hnr.1, ?_⟩
    intro u hu
    obtain ⟨obs, hobs⟩ := hu
    exact hnr.2 u (show isRPhase (c.tasks u) = true by rw [hobs]; rfl)

/-- C2: Drain correctness: a `write()` acquisition that is pending
(issued, not yet admitted) in a reachable state is only admitted once every
read permit that was held at issue time has been released: when the writer
handle becomes live, none of those readers still holds its permit —
regardless of the interleaving (hence of release order). -/
theorem C2_drain_correct {v : α} {c c₂ : Config n α} {t : Fin n} {pc : WriterPC}
    {tr : List (Fin n × Action α)}
    (hreach : Reachable v c) (_hissued : c.tasks t = .w pc)
    (_hpending : pc ≠ .writing)
    (hs : Steps c tr c₂) (hadmitted : writerLive c₂ t) :
    ∀ u, readHolds c u → ¬ readHolds c₂ u := by
  intro u _ hu₂
  exact (writing_no_reader (hreach.extend hs) hadmitted).2 u hu₂

/-- C3: Value visibility: after a write critical section performs
`set_value(v)` and the write handle is released, every subsequent `read()`
admission with no intervening `set_value` yields exactly `v`. -/
theorem C3_value_visibility {c₁ c₂ c₃ c₄ c₅ : Config n α} {t u : Fin n} {v : α}
    {k : ExitKind} {tr : List (Fin n × Action α)}
    (hset : Step c₁ (t, .wSet v) c₂)
    (hrel : Step c₂ (t, .wExit k) c₃)
    (hs : Steps c₃ tr c₄)
    (hnoset : ∀ l ∈ tr, isSetAction l.2 = false)
    (hread : Step c₄ (u, .rInc) c₅) :
    c₅.tasks u = .r (.reading v) := by
  have e2 : c₂.value = v := hset.wSet_value
  have e3 : c₃.value = c₂.value := hrel.value_frame_step rfl
  have e4 : c₄.value = c₃.value := hs.value_frame_trace hnoset
  rw [hread.rInc_reading, e4, e3, e2]

/-- C4: Guard release is unconditional and exactly-once: in any execution
from a fresh lock, each task performs at most one reader release (decrement
segment) and at most one writer release (`_wlock` release); a task that
finished a read (resp. write) with any exit kind — normal, exception, or
cancellation in the body — performed its release exactly once; and from
every live or exited guard state the exit and release steps are enabled for
every exit kind. -/
theorem C4_release_exactly_once {v : α} {c₂ : Config n α}
    {tr : List (Fin n × Action α)} (hs : Steps (initConfig n α v) tr c₂)
    (t : Fin n) :
    rDecCount t tr ≤ 1 ∧ wExitCount t tr ≤ 1
    ∧ (∀ k, c₂.tasks t = .r (.done k) → rDecCount t tr = 1)
    ∧ (∀ k, c₂.tasks t = .w (.done k) → wExitCount t tr = 1)
    ∧ (∀ k, c₂.tasks t = .r (.exited k) → ∃ c₃, Step c₂ (t, .rDec) c₃)
    ∧ (∀ k obs, c₂.tasks t = .r (.reading obs) → ∃ c₃, Step c₂ (t, .rExit k) c₃)
    ∧ (∀ k, c₂.tasks t = .w .writing → ∃ c₃, Step c₂ (t, .wExit k) c₃) := by
  have hr := hs.rDec_count t
  have hwc := hs.wExit_count t
  have h0r : rRelBit ((initConfig n α v).tasks t) = 0 := rfl
  have h0w : wRelBit ((initConfig n α v).tasks t) = 0 := rfl
  rw [h0r] at hr
  rw [h0w] at hwc
  refine ⟨?_, ?_, ?_, ?_, ?_, ?_, ?_⟩
  · have := rRelBit_le_one (c₂.tasks t); omega
  · have := wRelBit_le_one (c₂.tasks t); omega
  · intro k hk
    rw [hk] at hr
    have h1r : rRelBit (TaskState.r (ReaderPC.done k) : TaskState α) = 1 := rfl
    rw [h1r] at hr
    omega
  · intro k hk
    rw [hk] at hwc
    have h1w : wRelBit (TaskState.w (WriterPC.done k) : TaskState α) = 1 := rfl
    rw [h1w] at hwc
    omega
  · intro k hk; exact rDec_enabled hk
  · intro k obs hk; exact ⟨_, .rExit c₂ t k obs hk⟩
  · intro k hk; exact ⟨_, .wExit c₂ t k hk⟩

/-- C5: Cancellation atomicity: cancelling a pending `read()` or `write()`
acquisition before admission, in a reachable state, leaves the reader count
and the guarded value unchanged, leaves the admission mutex not held by the
cancelled task, and leaves every other task's state unchanged. -/
theorem C5_cancel_atomic {v : α} {c c₂ : Config n α} {t : Fin n} {a : Action α}
    (hreach : Reachable v c) (hs : Step c (t, a) c₂)
    (ha : a = .rCancel ∨ a = .wCancel) :
    c₂.readers = c.readers ∧ c₂.value = c.value ∧ c₂.wlockOwner ≠ some t
    ∧ ∀ u, u ≠ t → c₂.tasks u = c.tasks u := by
  have h5 := owner_holds_reachable hreach
  cases hs with
  | rSpawn h => simp at ha
  | rAcqW h hw => simp at ha
  | rInc h => simp at ha
  | rExit k obs h => simp at ha
  | rDecQuiet k h hn => simp at ha
  | rDecNotify u k h hz huw => simp at ha
  | rCancelW h =>
      rename_i h
      refine ⟨rfl, rfl, ?_, ?_⟩
      · intro hcon
        dsimp only at hcon
        have := h5 t hcon
        rw [h] at this
        simp [holdsW] at this
      · intro u hu
        dsimp only
        rw [Function.update_noteq hu]
  | rCancelC h =>
      refine ⟨rfl, rfl, ?_, ?_⟩
      · intro hcon
        dsimp only at hcon
        exact Option.noConfusion hcon
      · intro u hu
        dsimp only
        rw [Function.update_noteq hu]
  | wSpawn h => simp at ha
  | wAcqW h hw => simp at ha
  | wCheckExit h hz => simp at ha
  | wCheckWait h hp => simp at ha
  | wRecheckExit h hz => simp at ha
  | wRecheckWait h hp => simp at ha
  | wGet h => simp at ha
  | wSet v h => simp at ha
  | wExit k h => simp at ha
  | wCancelW h =>
      rename_i h
      refine ⟨rfl, rfl, ?_, ?_⟩
      · intro hcon
        dsimp only at hcon
        have := h5 t hcon
        rw [h] at this
        simp [holdsW] at this
      · intro u hu
        dsimp only
        rw [Function.update_noteq hu]
  | wCancelC h =>
      refine ⟨rfl, rfl, ?_, ?_⟩
      · intro hcon
        dsimp only at hcon
        exact Option.noConfusion hcon
      · intro u hu
        dsimp only
        rw [Function.update_noteq hu]
  | wCancelWait h =>
      refine ⟨rfl, rfl, ?_, ?_⟩
      · intro hcon
        dsimp only at hcon
        exact Option.noConfusion hcon
      · intro u hu
        dsimp only
        rw [Function.update_noteq hu]
  | wCancelNotified h =>
      refine ⟨rfl, rfl, ?_, ?_⟩
      · intro hcon
        dsimp only at hcon
        exact Option.noConfusion hcon
      · intro u hu
        dsimp only
        rw [Function.update_noteq hu]

/-- C6: The reader count is never negative in any reachable state (it starts
at 0 on construction, and matched acquisitions/releases keep it equal to the
number of unreleased read permits). -/
theorem C6_readers_nonneg {v : α} {c : Config n α} (h : Reachable v c) :
    0 ≤ c.readers := by
  obtain ⟨h1, _, _, _⟩ := inv_reachable h
  rw [h1]
  exact Int.natCast_nonneg _

/-- C7: Writer handle accessor semantics: on a live write handle,
`get_value()` returns the lock's currently owned value, and `set_value(new)`
replaces the owned value in place, returns nothing (`None`, modeled `()`),
discards the previous value, and changes no other component of the state. -/
theorem C7_writer_accessors {c cg cs : Config n α} {t : Fin n} {x v : α}
    (hg : Step c (t, .wGet x) cg) (hs : Step c (t, .wSet v) cs) :
    writerLive c t
    ∧ x = RwLock.Writer.get_value c ∧ RwLock.Writer.get_value c = c.value
    ∧ cg = c
    ∧ cs = (RwLock.Writer.set_value c v).1
    ∧ cs.value = v ∧ (RwLock.Writer.set_value c v).2 = ()
    ∧ cs.readers = c.readers ∧ cs.wlockOwner = c.wlockOwner
    ∧ cs.tasks = c.tasks := by
  cases hg with
  | wGet h =>
      rename_i h
      cases hs with
      | wSet h₂ =>
          exact ⟨h, rfl, rfl, rfl, rfl, rfl, rfl, rfl, rfl, rfl⟩

/-- C8: Read concurrency: any set of `read()` acquisitions pending on a lock
whose admission mutex is free (no live or pending writer holding it) can all
be admitted by steps of those tasks alone — no release by any other reader
is needed, no task outside the set moves, and the mutex ends free. -/
theorem C8_read_concurrency {c : Config n α} (ts : List (Fin n)) (hnd : ts.Nodup)
    (hpend : ∀ t ∈ ts, c.tasks t = .r .acqW) (hw : c.wlockOwner = none) :
    ∃ tr c₂, Steps c tr c₂
      ∧ (∀ l ∈ tr, l.1 ∈ ts ∧ (l.2 = Action.rAcqW ∨ l.2 = Action.rInc))
      ∧ (∀ t ∈ ts, ∃ obs, c₂.tasks t = .r (.reading obs))
      ∧ (∀ u, u ∉ ts → c₂.tasks u = c.tasks u)
      ∧ c₂.wlockOwner = none := by
  induction ts generalizing c with
  | nil =>
      exact ⟨[], c, .nil c, by simp, by simp, fun u _ => rfl, hw⟩
  | cons t ts ih =>
      rw [List.nodup_cons] at hnd
      obtain ⟨htn, hndts⟩ := hnd
      have ht : c.tasks t = .r .acqW := hpend t (List.mem_cons_self _ _)
      have hp2 : ∀ u ∈ ts,
          ({ c with
            wlockOwner := none
            readers := c.readers + 1
            tasks := Function.update (Function.update c.tasks t (.r .acqC)) t
              (.r (.reading c.value)) } : Config n α).tasks u = .r .acqW := by
        intro u hu
        have hune : u ≠ t := fun he => htn (he ▸ hu)
        dsimp only
        rw [Function.update_noteq hune, Function.update_noteq hune]
        exact hpend u (List.mem_cons_of_mem _ hu)
      obtain ⟨tr', c₃, hsteps', hlab, hread, hframe, hout⟩ :=
        ih (c := { c with
          wlockOwner := none
          readers := c.readers + 1
          tasks := Function.update (Function.update c.tasks t (.r .acqC)) t
            (.r (.reading c.value)) }) hndts hp2 rfl
      refine ⟨(t, .rAcqW) :: (t, .rInc) :: tr', c₃, ?_, ?_, ?_, ?_, hout⟩
      · refine .cons (Step.rAcqW c t ht hw) (.cons (Step.rInc _ t ?_) hsteps')
        exact Function.update_same t _ c.tasks
      · intro l hl
        rcases List.mem_cons.1 hl with rfl | hl
        · exact ⟨List.mem_cons_self _ _, .inl rfl⟩
        rcases List.mem_cons.1 hl with rfl | hl
        · exact ⟨List.mem_cons_self _ _, .inr rfl⟩
        · obtain ⟨hm, hact⟩ := hlab l hl
          exact ⟨List.mem_cons_of_mem _ hm, hact⟩
      · intro u hu
        rcases List.mem_cons.1 hu with rfl | hu
        · refine ⟨c.value, ?_⟩
          rw [hframe u htn]
          exact Function.update_same u _ _
        · exact hread u hu
      · intro u hu
        have hunotts : u ∉ ts := fun hm => hu (List.mem_cons_of_mem _ hm)
        have hune : u ≠ t := fun he => hu (he ▸ List.mem_cons_self _ _)
        rw [hframe u hunotts]
        dsimp only
        rw [Function.update_noteq hune, Function.update_noteq hune]

/-- C9: Implicit round-trip: on a live write handle, `set_value(v)`
immediately followed by `get_value()` returns exactly `v`; likewise for the
pure accessor functions. -/
theorem C9_set_get_roundtrip {c cs : Config n α} {t : Fin n} {v : α}
    (hs : Step c (t, .wSet v) cs) :
    RwLock.Writer.get_value cs = v ∧ Step cs (t, .wGet v) cs := by
  cases hs with
  | wSet h =>
      rename_i h
      exact ⟨rfl, Step.wGet _ t h⟩

/-- C10: Frame property: only `set_value` ever modifies the guarded value —
any execution fragment containing no `set_value` step (in particular a
complete `read()` acquisition and release, or a complete `write()`
acquisition and release that never calls `set_value`) leaves the guarded
value unchanged. -/
theorem C10_value_frame {c c₂ : Config n α} {tr : List (Fin n × Action α)}
    (hs : Steps c tr c₂) (hnoset : ∀ l ∈ tr, isSetAction l.2 = false) :
    c₂.value = c.value :=
  hs.value_frame_trace hnoset

/-! ## Concrete executions used as witnesses -/

/-- A fresh lock with one client task, initial value 0. -/
def wc0 : Config 1 ℤ := initConfig 1 ℤ 0

/-- Task 0 has issued `write()`. -/
def wc1 : Config 1 ℤ := { wc0 with tasks := Function.update wc0.tasks 0 (.w .acqW) }

/-- Task 0 holds `_wlock`, about to run the drain check. -/
def wc2 : Config 1 ℤ :=
  { wc1 with
    wlockOwner := some 0
    tasks := Function.update wc1.tasks 0 (.w .acqC) }

/-- Task 0 is a live writer. -/
def wc3 : Config 1 ℤ := { wc2 with tasks := Function.update wc2.tasks 0 (.w .writing) }

lemma wc3_reachable : Reachable (0 : ℤ) wc3 :=
  ⟨_, .cons (.wSpawn wc0 0 rfl)
    (.cons (.wAcqW wc1 0 (by decide) rfl)
      (.cons (.wCheckExit wc2 0 (by decide) (by decide)) (.nil wc3)))⟩

/-- A fresh two-task lock, initial value 0 (reader task 1, writer task 0). -/
def w2c0 : Config 2 ℤ := initConfig 2 ℤ 0

/-- Task 1 has issued `read()`. -/
def w2c1 : Config 2 ℤ := { w2c0 with tasks := Function.update w2c0.tasks 1 (.r .acqW) }

/-- Task 1 holds `_wlock` during its increment. -/
def w2c2 : Config 2 ℤ :=
  { w2c1 with
    wlockOwner := some 1
    tasks := Function.update w2c1.tasks 1 (.r .acqC) }

/-- Task 1 is a live reader; counter is 1. -/
def w2c3 : Config 2 ℤ :=
  { w2c2 with
    wlockOwner := none
    readers := w2c2.readers + 1
    tasks := Function.update w2c2.tasks 1 (.r (.reading w2c2.value)) }

/-- Task 0 has issued `write()` while the reader is live. -/
def w2c4 : Config 2 ℤ := { w2c3 with tasks := Function.update w2c3.tasks 0 (.w .acqW) }

/-- Task 0 holds `_wlock`, drain check pending: the issued-but-pending
writer state for the drain-correctness witness. -/
def w2c5 : Config 2 ℤ :=
  { w2c4 with
    wlockOwner := some 0
    tasks := Function.update w2c4.tasks 0 (.w .acqC) }

/-- The writer found `readers > 0` and waits on the condition. -/
def w2c6 : Config 2 ℤ := { w2c5 with tasks := Function.update w2c5.tasks 0 (.w .condWait) }

/-- The reader body exited; its `finally` is pending. -/
def w2c7 : Config 2 ℤ :=
  { w2c6 with tasks := Function.update w2c6.tasks 1 (.r (.exited .normal)) }

/-- The reader decremented to 0 and notified the waiting writer. -/
def w2c8 : Config 2 ℤ :=
  { w2c7 with
    readers := w2c7.readers - 1
    tasks := Function.update (Function.update w2c7.tasks 1 (.r (.done .normal))) 0
      (.w .condNotified) }

/-- The writer re-checked the drain condition and was admitted. -/
def w2c9 : Config 2 ℤ := { w2c8 with tasks := Function.update w2c8.tasks 0 (.w .writing) }

lemma w2c5_reachable : Reachable (0 : ℤ) w2c5 :=
  ⟨_, .cons (.rSpawn w2c0 1 rfl)
    (.cons (.rAcqW w2c1 1 (by decide) rfl)
      (.cons (.rInc w2c2 1 (by decide))
        (.cons (.wSpawn w2c3 0 (by decide))
          (.cons (.wAcqW w2c4 0 (by decide) rfl) (.nil w2c5)))))⟩

lemma w2c5_to_w2c9 :
    Steps w2c5 [(0, .wCheck), (1, .rExit .normal), (1, .rDec), (0, .wRecheck)] w2c9 :=
  .cons (.wCheckWait w2c5 0 (by decide) (by decide))
    (.cons (.rExit w2c6 1 .normal 0 (by decide))
      (.cons (.rDecNotify w2c7 1 0 .normal (by decide) (by decide) (by decide))
        (.cons (.wRecheckExit w2c8 0 (by decide) (by decide)) (.nil w2c9))))

/-- A live writer (task 0) and a pending reader (task 1), value 0. -/
def w3c1 : Config 2 ℤ :=
  { wlockOwner := some 0, readers := 0, value := 0,
    tasks := fun i => if i = 0 then .w .writing else .r .acqW }

/-- After the writer called `set_value(42)`. -/
def w3c2 : Config 2 ℤ := (RwLock.Writer.set_value w3c1 42).1

/-- After the writer released the lock. -/
def w3c3 : Config 2 ℤ :=
  { w3c2 with
    wlockOwner := none
    tasks := Function.update w3c2.tasks 0 (.w (.done .normal)) }

/-- The reader acquired `_wlock` for its increment. -/
def w3c4 : Config 2 ℤ :=
  { w3c3 with
    wlockOwner := some 1
    tasks := Function.update w3c3.tasks 1 (.r .acqC) }

/-- The reader was admitted and yielded the current value. -/
def w3c5 : Config 2 ℤ :=
  { w3c4 with
    wlockOwner := none
    readers := w3c4.readers + 1
    tasks := Function.update w3c4.tasks 1 (.r (.reading w3c4.value)) }

/-- A fresh two-task lock with value 7 for the release/frame witnesses. -/
def w4c0 : Config 2 ℤ := initConfig 2 ℤ 7

/-- Task 0 issued `read()`. -/
def w4c1 : Config 2 ℤ := { w4c0 with tasks := Function.update w4c0.tasks 0 (.r .acqW) }

/-- Task 0 holds `_wlock` during its increment. -/
def w4c2 : Config 2 ℤ :=
  { w4c1 with
    wlockOwner := some 0
    tasks := Function.update w4c1.tasks 0 (.r .acqC) }

/-- Task 0 is a live reader. -/
def w4c3 : Config 2 ℤ :=
  { w4c2 with
    wlockOwner := none
    readers := w4c2.readers + 1
    tasks := Function.update w4c2.tasks 0 (.r (.reading w4c2.value)) }

/-- Task 0's body raised an exception; `finally` pending. -/
def w4c4 : Config 2 ℤ :=
  { w4c3 with tasks := Function.update w4c3.tasks 0 (.r (.exited .error)) }

/-- Task 0 performed its decrement (no waiter to notify). -/
def w4c5 : Config 2 ℤ :=
  { w4c4 with
    readers := w4c4.readers - 1
    tasks := Function.update w4c4.tasks 0 (.r (.done .error)) }

/-- Task 1 issued `write()`. -/
def w4c6 : Config 2 ℤ := { w4c5 with tasks := Function.update w4c5.tasks 1 (.w .acqW) }

/-- Task 1 holds `_wlock`. -/
def w4c7 : Config 2 ℤ :=
  { w4c6 with
    wlockOwner := some 1
    tasks := Function.update w4c6.tasks 1 (.w .acqC) }

/-- Task 1 was admitted as a writer. -/
def w4c8 : Config 2 ℤ := { w4c7 with tasks := Function.update w4c7.tasks 1 (.w .writing) }

/-- Task 1 exited the write body (no `set_value` call) and released. -/
def w4c9 : Config 2 ℤ :=
  { w4c8 with
    wlockOwner := none
    tasks := Function.update w4c8.tasks 1 (.w (.done .normal)) }

/-- A complete exception-exiting read by task 0 followed by a complete
`set_value`-free write (with one `get_value`) by task 1. -/
def w4tr : List (Fin 2 × Action ℤ) :=
  [(0, .rSpawn), (0, .rAcqW), (0, .rInc), (0, .rExit .error), (0, .rDec),
   (1, .wSpawn), (1, .wAcqW), (1, .wCheck), (1, .wGet 7), (1, .wExit .normal)]

lemma w4steps : Steps w4c0 w4tr w4c9 :=
  .cons (.rSpawn w4c0 0 rfl)
    (.cons (.rAcqW w4c1 0 (by decide) rfl)
      (.cons (.rInc w4c2 0 (by decide))
        (.cons (.rExit w4c3 0 .error 7 (by decide))
          (.cons (.rDecQuiet w4c4 0 .error (by decide) (.inr (by decide)))
            (.cons (.wSpawn w4c5 1 (by decide))
              (.cons (.wAcqW w4c6 1 (by decide) rfl)
                (.cons (.wCheckExit w4c7 1 (by decide) (by decide))
                  (.cons (.wGet w4c8 1 (by decide))
                    (.cons (.wExit w4c8 1 .normal (by decide)) (.nil w4c9))))))))))

/-- One pending reader on a fresh one-task lock. -/
def w5c1 : Config 1 ℤ := { wc0 with tasks := Function.update wc0.tasks 0 (.r .acqW) }

/-- The pending reader after cancellation before admission. -/
def w5c2 : Config 1 ℤ := { w5c1 with tasks := Function.update w5c1.tasks 0 (.r .cancelledPre) }

/-- A live writer on a one-task lock owning the value 5. -/
def w7a : Config 1 ℤ :=
  { wlockOwner := some 0, readers := 0, value := 5, tasks := fun _ => .w .writing }

/-- The same state after `set_value(42)`. -/
def w7b : Config 1 ℤ := (RwLock.Writer.set_value w7a 42).1

/-- Two pending readers on a lock with a free admission mutex, value 9. -/
def w8c : Config 2 ℤ :=
  { wlockOwner := none, readers := 0, value := 9, tasks := fun _ => .r .acqW }

/-! ## Witnesses -/

/-- C1 witness: at the reachable configuration `wc3` with a live writer. -/
theorem C1_mutual_exclusion_witness :
    (∀ t u, writerLive wc3 t → writerLive wc3 u → t = u)
    ∧ ∀ t, writerLive wc3 t → wc3.readers = 0 ∧ ∀ u, ¬ readGuardLive wc3 u :=
  C1_mutual_exclusion wc3_reachable

/-- C2 witness: a writer issued while reader 1 was live is admitted only
after that reader released. -/
theorem C2_drain_correct_witness : ¬ readHolds w2c9 1 :=
  C2_drain_correct (t := 0) w2c5_reachable rfl (by decide)
    w2c5_to_w2c9 rfl 1 rfl

/-- C3 witness: value 0 at construction, writer sets 42 and releases, the
next read admission observes 42. -/
theorem C3_value_visibility_witness : w3c5.tasks 1 = .r (.reading 42) :=
  C3_value_visibility (Step.wSet w3c1 0 42 rfl)
    (Step.wExit w3c2 0 .normal (by decide))
    (.cons (Step.rAcqW w3c3 1 (by decide) rfl) (.nil w3c4))
    (by decide)
    (Step.rInc w3c4 1 (by decide))

/-- C4 witness: in the concrete execution `w4tr`, the exception-exiting
reader released exactly once and the writer released exactly once. -/
theorem C4_release_exactly_once_witness :
    rDecCount (0 : Fin 2) w4tr = 1 ∧ wExitCount (1 : Fin 2) w4tr = 1 :=
  ⟨(C4_release_exactly_once w4steps 0).2.2.1 .error (by decide),
   (C4_release_exactly_once w4steps 1).2.2.2.1 .normal (by decide)⟩

/-- C5 witness: cancelling the pending reader of `w5c1` changes neither the
counter nor the value and leaves the mutex unowned by it. -/
theorem C5_cancel_atomic_witness :
    w5c2.readers = w5c1.readers ∧ w5c2.value = w5c1.value
    ∧ w5c2.wlockOwner ≠ some 0 :=
  have h := C5_cancel_atomic (v := (0 : ℤ))
    ⟨_, .cons (.rSpawn wc0 0 rfl) (.nil w5c1)⟩
    (Step.rCancelW w5c1 0 (by decide)) (.inl rfl)
  ⟨h.1, h.2.1, h.2.2.1⟩

/-- C6 witness: the fresh lock has a non-negative counter. -/
theorem C6_readers_nonneg_witness : 0 ≤ (initConfig 1 ℤ 0).readers :=
  C6_readers_nonneg ⟨[], .nil _⟩

/-- C7 witness: on the live writer of `w7a`, `get_value` returns 5 and
`set_value 42` only replaces the value, returning `()`. -/
theorem C7_writer_accessors_witness :
    writerLive w7a 0
    ∧ (5 : ℤ) = RwLock.Writer.get_value w7a
    ∧ RwLock.Writer.get_value w7a = w7a.value
    ∧ w7a = w7a
    ∧ w7b = (RwLock.Writer.set_value w7a 42).1
    ∧ w7b.value = 42 ∧ (RwLock.Writer.set_value w7a 42).2 = ()
    ∧ w7b.readers = w7a.readers ∧ w7b.wlockOwner = w7a.wlockOwner
    ∧ w7b.tasks = w7a.tasks :=
  C7_writer_accessors (Step.wGet w7a 0 rfl) (Step.wSet w7a 0 42 rfl)

/-- C8 witness: both pending readers of `w8c` are admitted by their own
acquisition steps alone. -/
theorem C8_read_concurrency_witness :
    ∃ tr c₂, Steps w8c tr c₂
      ∧ (∀ l ∈ tr, l.1 ∈ [(0 : Fin 2), 1] ∧ (l.2 = Action.rAcqW ∨ l.2 = Action.rInc))
      ∧ (∀ t ∈ [(0 : Fin 2), 1], ∃ obs, c₂.tasks t = .r (.reading obs))
      ∧ (∀ u, u ∉ [(0 : Fin 2), 1] → c₂.tasks u = w8c.tasks u)
      ∧ c₂.wlockOwner = none :=
  C8_read_concurrency [0, 1] (by decide) (by decide) rfl

/-- C9 witness: `set_value 42` then `get_value` on the live writer of `w7a`
returns 42. -/
theorem C9_set_get_roundtrip_witness :
    RwLock.Writer.get_value w7b = 42 ∧ Step w7b ((0 : Fin 1), .wGet 42) w7b :=
  C9_set_get_roundtrip (Step.wSet w7a 0 42 rfl)

/-- C10 witness: the execution `w4tr` (a full read cycle and a full
`set_value`-free write cycle) leaves the value 7 unchanged. -/
theorem C10_value_frame_witness : w4c9.value = w4c0.value :=
  C10_value_frame w4steps (by decide)

end AsyncRwLock
